import Mathlib

/-!
Verification of the schema-standardization and merge pipeline of the
`nyc-taxi-prediction` notebook (`src/notebooks/processing_1.ipynb`).

The notebook's own logic is:
  * `standardize_schema(df)`: five `withColumn(name, col(name).cast(ty))`
    calls (casting `VendorID`, `PULocationID`, `DOLocationID` to `int` and
    `passenger_count`, `RatecodeID` to `double`), followed by
    `withColumnRenamed("Airport_fee", "airport_fee")`;
  * an accumulation loop over the input files with a `None` sentinel,
    combining standardized tables with `unionByName`;
  * `sdf.write.parquet(...)` and, in a separate final cell, `spark.stop()`.

We embed tables as a schema (list of name/type pairs) plus a list of rows
(lists of values).  Engine behaviours exercised by the notebook are modelled
as follows, with the notebook's input data (numeric ID/count columns) in
mind:
  * column resolution is by exact name (the notebook's inputs use exact
    spellings; the engine's case-insensitive resolution is not needed to
    distinguish any observed input);
  * `cast("int")` on a 64-bit integer value wraps modulo 2^32 (JVM long to
    int narrowing); on a floating-point value it truncates toward zero and
    clamps to the 32-bit range (JVM double to int); casting a non-numeric
    value yields null (the engine would parse numeric strings, but no cast
    in the pipeline is applied to a string column);
  * floating-point payloads are carried as exact rationals; the pipeline
    never computes with them, it only moves them (rounding of a 64-bit
    integer embedded into a 64-bit float is abstracted away; no claim
    depends on it);
  * `unionByName` requires both operands to have the same column names
    (no duplicates) with the same declared type per name, keeps the left
    operand's column order, and appends the right operand's rows aligned
    by column name (the engine's implicit numeric widening across
    differently-typed unions is not modelled: all unions in the pipeline
    happen after standardization, on identically-typed tables);
  * a raised error aborts the straight-line notebook run, so the final
    `spark.stop()` cell is reached only when every earlier cell succeeded.
-/

/-- Column types observed in the input Parquet schemas. -/
inductive DType where
  | int
  | long
  | double
  | str
  | timestampNtz
deriving DecidableEq, Repr

/-- The cast targets that actually appear in `standardize_schema`:
`cast("int")` and `cast("double")`. -/
inductive CastTy where
  | cint
  | cdouble
deriving DecidableEq, Repr

/-- Cell values.  Floating-point payloads are exact rationals (see the
header comment). -/
inductive Value where
  | null
  | int (n : Int)
  | long (n : Int)
  | double (q : Rat)
  | str (s : String)
  | ts (n : Int)
deriving DecidableEq, Repr

/-- A table: named, typed columns plus rows of values (one value per
column, in schema order). -/
structure Table where
  schema : List (String × DType)
  rows : List (List Value)
deriving DecidableEq, Repr

/-- Errors surfaced by the schema operations: an unresolvable column
reference in a cast (the engine's analysis error), or a column-name/type
mismatch in `unionByName`. -/
inductive SchemaError where
  | missingColumn (name : String)
  | unionMismatch
deriving DecidableEq, Repr

/-- Errors that abort the notebook run: a schema error from the
transformation, or use of the `None` accumulator sentinel after the loop
(the Python `AttributeError` on `sdf.printSchema()` / `sdf.write`). -/
inductive PipelineError where
  | schema (e : SchemaError)
  | emptyAccumulator
deriving DecidableEq, Repr

/-- The column names of a table, in order. -/
def Table.names (t : Table) : List String :=
  t.schema.map Prod.fst

/-- Declared type of the first column with the given name. -/
def Table.typeOf (t : Table) (name : String) : Option DType :=
  (t.schema.find? (fun c => c.1 = name)).map Prod.snd

/-- Every row has exactly one value per schema column. -/
def Table.WFRows (t : Table) : Prop :=
  ∀ r ∈ t.rows, r.length = t.schema.length

instance (t : Table) : Decidable t.WFRows := by
  unfold Table.WFRows; infer_instance

/-- JVM narrowing of a 64-bit integer to 32 bits (wraps modulo 2^32). -/
def wrap32 (n : Int) : Int :=
  (n + 2 ^ 31) % 2 ^ 32 - 2 ^ 31

/-- JVM double-to-int conversion clamps to the 32-bit range. -/
def clamp32 (n : Int) : Int :=
  max (-(2 ^ 31)) (min (2 ^ 31 - 1) n)

/-- Truncation of a rational toward zero. -/
def ratTrunc (q : Rat) : Int :=
  q.num / (q.den : Int)

/-- Declared type produced by each cast target. -/
def declaredType : CastTy → DType
  | .cint => .int
  | .cdouble => .double

/-- Value-level semantics of `cast("int")` / `cast("double")` (see the
header comment for the conventions on non-numeric operands). -/
def castVal : CastTy → Value → Value
  | _, .null => .null
  | .cint, .int n => .int n
  | .cint, .long n => .int (wrap32 n)
  | .cint, .double q => .int (clamp32 (ratTrunc q))
  | .cint, .str _ => .null
  | .cint, .ts _ => .null
  | .cdouble, .int n => .double n
  | .cdouble, .long n => .double n
  | .cdouble, .double q => .double q
  | .cdouble, .str _ => .null
  | .cdouble, .ts _ => .null

/-- `df.withColumn(name, col(name).cast(ty))`: if no column is named
`name`, the column reference fails to resolve (analysis error); otherwise
the column keeps its position, its declared type becomes the cast target's
type, and every value in it is cast. -/
def castColumn (t : Table) (name : String) (ty : CastTy) : Except SchemaError Table :=
  if name ∈ t.schema.map Prod.fst then
    .ok ⟨t.schema.map (fun c => if c.1 = name then (c.1, declaredType ty) else c),
         t.rows.map (fun r =>
           List.zipWith (fun n v => if n = name then castVal ty v else v)
             (t.schema.map Prod.fst) r)⟩
  else
    .error (.missingColumn name)

/-- `df.withColumnRenamed(old, new)`: renames every column named `old`;
a no-op when no column is named `old`. -/
def renameColumn (t : Table) (old new_ : String) : Table :=
  ⟨t.schema.map (fun c => if c.1 = old then (new_, c.2) else c), t.rows⟩

/-- The notebook's `standardize_schema`: five casts, then the
`Airport_fee` rename. -/
def standardize_schema (t : Table) : Except SchemaError Table := do
  let t1 ← castColumn t "VendorID" .cint
  let t2 ← castColumn t1 "passenger_count" .cdouble
  let t3 ← castColumn t2 "RatecodeID" .cdouble
  let t4 ← castColumn t3 "PULocationID" .cint
  let t5 ← castColumn t4 "DOLocationID" .cint
  pure (renameColumn t5 "Airport_fee" "airport_fee")

/-- Value of the first column named `name`, given the column-name list and
one row (`null` when absent, which the callers rule out). -/
def lookupVal (ns : List String) (r : List Value) (name : String) : Value :=
  (((ns.zip r).find? (fun p => p.1 = name)).map Prod.snd).getD .null

/-- Reorder one row of a table with columns `ns2` into the column order
`ns1`, matching columns by name. -/
def alignRow (ns1 ns2 : List String) (r : List Value) : List Value :=
  ns1.map (fun n => lookupVal ns2 r n)

/-- `t1.unionByName(t2)`: both operands must have the same column names
(no duplicates on either side) with the same declared types; the result
keeps `t1`'s column order and appends `t2`'s rows aligned by name. -/
def unionByName (t1 t2 : Table) : Except SchemaError Table :=
  if (t1.schema.map Prod.fst).Nodup ∧ (t2.schema.map Prod.fst).Nodup ∧
      t2.schema.Perm t1.schema then
    .ok ⟨t1.schema,
         t1.rows ++ t2.rows.map (alignRow (t1.schema.map Prod.fst) (t2.schema.map Prod.fst))⟩
  else
    .error .unionMismatch

/-- The merge half of the notebook's accumulation loop, over tables that
are already standardized: the accumulator starts as the `None` sentinel,
the first table seeds it, every further table is combined in with
`unionByName`. -/
def mergeLoop : Option Table → List Table → Except SchemaError (Option Table)
  | acc, [] => .ok acc
  | none, t :: rest => mergeLoop (some t) rest
  | some u, t :: rest => do
      let u2 ← unionByName u t
      mergeLoop (some u2) rest

/-- The notebook's loop verbatim: each file's table is standardized and
then folded into the accumulator. -/
def pipelineLoop : Option Table → List Table → Except SchemaError (Option Table)
  | acc, [] => .ok acc
  | acc, df :: rest => do
      let sdf ← standardize_schema df
      match acc with
      | none => pipelineLoop (some sdf) rest
      | some u => do
          let u2 ← unionByName u sdf
          pipelineLoop (some u2) rest

/-- The whole notebook run on a list of input tables.  The returned flag
records whether the final `spark.stop()` cell was reached: the notebook is
straight-line, so an error raised in the transformation cells aborts the
run before the stop cell.  (The parquet write itself is abstracted as
succeeding; its possible I/O failure would likewise precede the stop
cell.) -/
def runNotebook (inputs : List Table) : Except PipelineError Table × Bool :=
  match pipelineLoop none inputs with
  | .error e => (.error (.schema e), false)
  | .ok none => (.error .emptyAccumulator, false)
  | .ok (some t) => (.ok t, true)

/-- The five columns referenced by the fixed cast rules. -/
def requiredColumns : List String :=
  ["VendorID", "passenger_count", "RatecodeID", "PULocationID", "DOLocationID"]

/-- All five cast-rule columns are present in the table. -/
def RequiredPresent (t : Table) : Prop :=
  ∀ n ∈ requiredColumns, n ∈ t.schema.map Prod.fst

instance (t : Table) : Decidable (RequiredPresent t) := by
  unfold RequiredPresent; infer_instance

/-- Row count of the loop accumulator (`None` holds no rows). -/
def optRowCount : Option Table → Nat
  | none => 0
  | some t => t.rows.length

/-- Rows of the loop accumulator. -/
def optRows : Option Table → List (List Value)
  | none => []
  | some t => t.rows

/-! ### A closed form for `standardize_schema` -/

/-- The single cast step of `castColumn` as a total table transform
(applied only when the column is present). -/
def castT (name : String) (ty : CastTy) (t : Table) : Table :=
  ⟨t.schema.map (fun c => if c.1 = name then (c.1, declaredType ty) else c),
   t.rows.map (fun r =>
     List.zipWith (fun n v => if n = name then castVal ty v else v)
       (t.schema.map Prod.fst) r)⟩

theorem castColumn_eq_ok (t : Table) (name : String) (ty : CastTy)
    (h : name ∈ t.schema.map Prod.fst) :
    castColumn t name ty = .ok (castT name ty t) := by
  simp [castColumn, castT, h]

theorem castColumn_eq_err (t : Table) (name : String) (ty : CastTy)
    (h : name ∉ t.schema.map Prod.fst) :
    castColumn t name ty = .error (.missingColumn name) := by
  simp [castColumn, h]

theorem names_castT (name : String) (ty : CastTy) (t : Table) :
    (castT name ty t).schema.map Prod.fst = t.schema.map Prod.fst := by
  simp only [castT, List.map_map]
  apply List.map_congr_left
  intro c _
  by_cases h : c.1 = name <;> simp [h]

theorem rows_length_castT (name : String) (ty : CastTy) (t : Table) :
    (castT name ty t).rows.length = t.rows.length := by
  simp [castT]

theorem rows_castT (name : String) (ty : CastTy) (t : Table) :
    (castT name ty t).rows = t.rows.map (fun r =>
      List.zipWith (fun n v => if n = name then castVal ty v else v)
        (t.schema.map Prod.fst) r) := rfl

theorem rows_renameColumn (t : Table) (old new_ : String) :
    (renameColumn t old new_).rows = t.rows := rfl

/-- Canonical column name after standardization. -/
def stdName (n : String) : String :=
  if n = "Airport_fee" then "airport_fee" else n

/-- Declared type of a column after standardization, by column name. -/
def stdType (n : String) (τ : DType) : DType :=
  if n = "VendorID" then .int
  else if n = "passenger_count" then .double
  else if n = "RatecodeID" then .double
  else if n = "PULocationID" then .int
  else if n = "DOLocationID" then .int
  else τ

/-- Value transformation applied by standardization, by column name. -/
def stdVal (n : String) (v : Value) : Value :=
  if n = "VendorID" then castVal .cint v
  else if n = "passenger_count" then castVal .cdouble v
  else if n = "RatecodeID" then castVal .cdouble v
  else if n = "PULocationID" then castVal .cint v
  else if n = "DOLocationID" then castVal .cint v
  else v

/-- Closed form of the standardized table. -/
def normalForm (t : Table) : Table :=
  ⟨t.schema.map (fun c => (stdName c.1, stdType c.1 c.2)),
   t.rows.map (fun r => List.zipWith stdVal (t.schema.map Prod.fst) r)⟩

theorem zipWith_comp_same {α β : Type _} (f g : α → β → β) (ns : List α) (r : List β) :
    List.zipWith f ns (List.zipWith g ns r) =
      List.zipWith (fun n v => f n (g n v)) ns r := by
  induction ns generalizing r with
  | nil => simp
  | cons n ns ih =>
    cases r with
    | nil => simp
    | cons v vs => simp [ih]

theorem zipWith_congr_fun {α β γ : Type _} {f g : α → β → γ}
    (h : ∀ a b, f a b = g a b) (l1 : List α) (l2 : List β) :
    List.zipWith f l1 l2 = List.zipWith g l1 l2 := by
  have hfg : f = g := funext fun a => funext fun b => h a b
  rw [hfg]

theorem exceptBind_ok {ε α β : Type _} (a : α) (f : α → Except ε β) :
    (Except.ok a >>= f : Except ε β) = f a := rfl

theorem standardize_eq_normalForm (t : Table) (h5 : RequiredPresent t) :
    standardize_schema t = .ok (normalForm t) := by
  have hV := h5 "VendorID" (by simp [requiredColumns])
  have hP := h5 "passenger_count" (by simp [requiredColumns])
  have hR := h5 "RatecodeID" (by simp [requiredColumns])
  have hU := h5 "PULocationID" (by simp [requiredColumns])
  have hD := h5 "DOLocationID" (by simp [requiredColumns])
  unfold standardize_schema
  rw [castColumn_eq_ok _ _ _ hV, exceptBind_ok,
      castColumn_eq_ok _ _ _ (by rw [names_castT]; exact hP), exceptBind_ok,
      castColumn_eq_ok _ _ _ (by rw [names_castT, names_castT]; exact hR), exceptBind_ok,
      castColumn_eq_ok _ _ _ (by rw [names_castT, names_castT, names_castT]; exact hU),
      exceptBind_ok,
      castColumn_eq_ok _ _ _
        (by rw [names_castT, names_castT, names_castT, names_castT]; exact hD),
      exceptBind_ok]
  show Except.ok _ = _
  apply congrArg
  apply congrArg₂ Table.mk
  · simp only [renameColumn, castT, List.map_map]
    apply List.map_congr_left
    intro c _
    obtain ⟨n, τ⟩ := c
    by_cases h1 : n = "VendorID"
    · subst h1; simp [stdName, stdType, declaredType]
    · by_cases h2 : n = "passenger_count"
      · subst h2; simp [stdName, stdType, declaredType]
      · by_cases h3 : n = "RatecodeID"
        · subst h3; simp [stdName, stdType, declaredType]
        · by_cases h4 : n = "PULocationID"
          · subst h4; simp [stdName, stdType, declaredType]
          · by_cases h5d : n = "DOLocationID"
            · subst h5d; simp [stdName, stdType, declaredType]
            · by_cases h6 : n = "Airport_fee"
              · subst h6; simp [stdName, stdType, declaredType]
              · simp [h1, h2, h3, h4, h5d, h6, stdName, stdType]
  · simp only [rows_renameColumn, rows_castT, names_castT, List.map_map]
    apply List.map_congr_left
    intro r _
    simp only [Function.comp]
    rw [zipWith_comp_same, zipWith_comp_same, zipWith_comp_same, zipWith_comp_same]
    apply zipWith_congr_fun
    intro n v
    by_cases h1 : n = "VendorID"
    · subst h1; simp [stdVal]
    · by_cases h2 : n = "passenger_count"
      · subst h2; simp [stdVal]
      · by_cases h3 : n = "RatecodeID"
        · subst h3; simp [stdVal]
        · by_cases h4 : n = "PULocationID"
          · subst h4; simp [stdVal]
          · by_cases h5d : n = "DOLocationID"
            · subst h5d; simp [stdVal]
            · simp [h1, h2, h3, h4, h5d, stdVal]

theorem exceptBind_err {ε α β : Type _} (e : ε) (f : α → Except ε β) :
    (Except.error e >>= f : Except ε β) = .error e := rfl

theorem names_normalForm (t : Table) :
    (normalForm t).schema.map Prod.fst = (t.schema.map Prod.fst).map stdName := by
  simp only [normalForm, List.map_map]
  apply List.map_congr_left
  intro c _
  rfl

theorem find?_congr_pred {α : Type _} {p q : α → Bool} (h : ∀ a, p a = q a)
    (l : List α) : l.find? p = l.find? q := by
  have hpq : p = q := funext h
  rw [hpq]

theorem find?_eq_of_mem_fst (sch : List (String × DType)) (m : String)
    (hmem : m ∈ sch.map Prod.fst) :
    ∃ c, sch.find? (fun c => c.1 = m) = some c ∧ c.1 = m := by
  obtain ⟨c, hc, hcm⟩ := List.mem_map.mp hmem
  have hsome : (sch.find? (fun c => decide (c.1 = m))).isSome := by
    rw [List.find?_isSome]
    exact ⟨c, hc, by simp [hcm]⟩
  obtain ⟨c', hc'⟩ := Option.isSome_iff_exists.mp hsome
  exact ⟨c', hc', by simpa using List.find?_some hc'⟩

/-- Declared type, in the standardized table, of a column whose name is
fixed by `stdName` and whose standardized type does not depend on the
original type. -/
theorem typeOf_normalForm_eq (t : Table) (m : String) (τfix : DType)
    (hname : ∀ n, stdName n = m ↔ n = m)
    (hty : ∀ τ, stdType m τ = τfix)
    (hmem : m ∈ t.schema.map Prod.fst) :
    (normalForm t).typeOf m = some τfix := by
  unfold Table.typeOf normalForm
  rw [List.find?_map]
  have hpred : ∀ c : String × DType,
      (fun c : String × DType => decide (c.1 = m))
        ((fun c : String × DType => (stdName c.1, stdType c.1 c.2)) c) =
      (fun c : String × DType => decide (c.1 = m)) c := by
    intro c
    simp [hname c.1]
  rw [find?_congr_pred (by intro c; exact hpred c)]
  obtain ⟨c, hfind, hcm⟩ := find?_eq_of_mem_fst t.schema m hmem
  rw [hfind]
  simp [hcm, hty]

theorem standardize_err_of_not_required (t : Table) (h : ¬ RequiredPresent t) :
    ∃ e, standardize_schema t = .error e := by
  unfold standardize_schema
  by_cases hV : "VendorID" ∈ t.schema.map Prod.fst
  · rw [castColumn_eq_ok _ _ _ hV, exceptBind_ok]
    by_cases hP : "passenger_count" ∈ (castT "VendorID" .cint t).schema.map Prod.fst
    · have hP' : "passenger_count" ∈ t.schema.map Prod.fst := by
        rw [names_castT] at hP; exact hP
      rw [castColumn_eq_ok _ _ _ hP, exceptBind_ok]
      by_cases hR : "RatecodeID" ∈
          (castT "passenger_count" .cdouble (castT "VendorID" .cint t)).schema.map Prod.fst
      · have hR' : "RatecodeID" ∈ t.schema.map Prod.fst := by
          rw [names_castT, names_castT] at hR; exact hR
        rw [castColumn_eq_ok _ _ _ hR, exceptBind_ok]
        by_cases hU : "PULocationID" ∈ (castT "RatecodeID" .cdouble
            (castT "passenger_count" .cdouble (castT "VendorID" .cint t))).schema.map Prod.fst
        · have hU' : "PULocationID" ∈ t.schema.map Prod.fst := by
            rw [names_castT, names_castT, names_castT] at hU; exact hU
          rw [castColumn_eq_ok _ _ _ hU, exceptBind_ok]
          by_cases hD : "DOLocationID" ∈ (castT "PULocationID" .cint (castT "RatecodeID" .cdouble
              (castT "passenger_count" .cdouble (castT "VendorID" .cint t)))).schema.map Prod.fst
          · have hD' : "DOLocationID" ∈ t.schema.map Prod.fst := by
              rw [names_castT, names_castT, names_castT, names_castT] at hD; exact hD
            exfalso
            apply h
            intro n hn
            simp only [requiredColumns, List.mem_cons, List.not_mem_nil, or_false] at hn
            rcases hn with h1 | h1 | h1 | h1 | h1 <;> subst h1 <;> assumption
          · rw [castColumn_eq_err _ _ _ hD, exceptBind_err]
            exact ⟨_, rfl⟩
        · rw [castColumn_eq_err _ _ _ hU, exceptBind_err]
          exact ⟨_, rfl⟩
      · rw [castColumn_eq_err _ _ _ hR, exceptBind_err]
        exact ⟨_, rfl⟩
    · rw [castColumn_eq_err _ _ _ hP, exceptBind_err]
      exact ⟨_, rfl⟩
  · rw [castColumn_eq_err _ _ _ hV, exceptBind_err]
    exact ⟨_, rfl⟩

theorem standardize_error_iff (t : Table) :
    (∃ e, standardize_schema t = .error e) ↔ ¬ RequiredPresent t := by
  constructor
  · rintro ⟨e, he⟩ hreq
    rw [standardize_eq_normalForm t hreq] at he
    exact Except.noConfusion he
  · exact standardize_err_of_not_required t

theorem standardize_ok_required (t u : Table)
    (h : standardize_schema t = .ok u) : RequiredPresent t := by
  by_contra hn
  obtain ⟨e, he⟩ := standardize_err_of_not_required t hn
  rw [he] at h
  exact Except.noConfusion h

/-! ### Idempotence of standardization -/

theorem stdName_idem (n : String) : stdName (stdName n) = stdName n := by
  by_cases h : n = "Airport_fee" <;> simp [stdName, h]

theorem stdType_stdName (n : String) (τ : DType) :
    stdType (stdName n) (stdType n τ) = stdType n τ := by
  by_cases h1 : n = "VendorID"
  · subst h1; simp [stdName, stdType]
  · by_cases h2 : n = "passenger_count"
    · subst h2; simp [stdName, stdType]
    · by_cases h3 : n = "RatecodeID"
      · subst h3; simp [stdName, stdType]
      · by_cases h4 : n = "PULocationID"
        · subst h4; simp [stdName, stdType]
        · by_cases h5 : n = "DOLocationID"
          · subst h5; simp [stdName, stdType]
          · by_cases h6 : n = "Airport_fee"
            · subst h6; simp [stdName, stdType]
            · simp [stdName, stdType, h1, h2, h3, h4, h5, h6]

theorem castVal_idem (ty : CastTy) (v : Value) :
    castVal ty (castVal ty v) = castVal ty v := by
  cases ty <;> cases v <;> rfl

theorem stdVal_stdName (n : String) (v : Value) :
    stdVal (stdName n) (stdVal n v) = stdVal n v := by
  by_cases h1 : n = "VendorID"
  · subst h1; simp [stdName, stdVal, castVal_idem]
  · by_cases h2 : n = "passenger_count"
    · subst h2; simp [stdName, stdVal, castVal_idem]
    · by_cases h3 : n = "RatecodeID"
      · subst h3; simp [stdName, stdVal, castVal_idem]
      · by_cases h4 : n = "PULocationID"
        · subst h4; simp [stdName, stdVal, castVal_idem]
        · by_cases h5 : n = "DOLocationID"
          · subst h5; simp [stdName, stdVal, castVal_idem]
          · by_cases h6 : n = "Airport_fee"
            · subst h6; simp [stdName, stdVal]
            · simp [stdName, stdVal, h1, h2, h3, h4, h5, h6]

theorem normalForm_idem (t : Table) : normalForm (normalForm t) = normalForm t := by
  have hschema : (normalForm (normalForm t)).schema = (normalForm t).schema := by
    show ((t.schema.map _).map _) = t.schema.map _
    rw [List.map_map]
    apply List.map_congr_left
    intro c _
    show (stdName (stdName c.1), stdType (stdName c.1) (stdType c.1 c.2)) = _
    rw [stdName_idem, stdType_stdName]
  have hrows : (normalForm (normalForm t)).rows = (normalForm t).rows := by
    show ((t.rows.map _).map fun r =>
        List.zipWith stdVal ((normalForm t).schema.map Prod.fst) r) = t.rows.map _
    rw [names_normalForm, List.map_map]
    apply List.map_congr_left
    intro r _
    show List.zipWith stdVal ((t.schema.map Prod.fst).map stdName)
        (List.zipWith stdVal (t.schema.map Prod.fst) r) = _
    rw [List.zipWith_map_left, zipWith_comp_same]
    exact zipWith_congr_fun (fun n v => stdVal_stdName n v) _ _
  calc normalForm (normalForm t)
      = ⟨(normalForm (normalForm t)).schema, (normalForm (normalForm t)).rows⟩ := rfl
    _ = ⟨(normalForm t).schema, (normalForm t).rows⟩ := by rw [hschema, hrows]
    _ = normalForm t := rfl

theorem requiredPresent_normalForm (t : Table) (h : RequiredPresent t) :
    RequiredPresent (normalForm t) := by
  intro n hn
  have hmem := h n hn
  have hfix : stdName n = n := by
    simp only [requiredColumns, List.mem_cons, List.not_mem_nil, or_false] at hn
    rcases hn with h1 | h1 | h1 | h1 | h1 <;> subst h1 <;> simp [stdName]
  rw [names_normalForm, ← hfix]
  exact List.mem_map_of_mem stdName hmem

/-! ### The airport-fee rename -/

theorem count_airport_map_stdName (ns : List String) :
    (ns.map stdName).count "airport_fee" =
      ns.count "Airport_fee" + ns.count "airport_fee" := by
  induction ns with
  | nil => simp
  | cons n ns ih =>
    by_cases h : n = "Airport_fee"
    · subst h
      simp [stdName, List.count_cons, ih]
      omega
    · by_cases h2 : n = "airport_fee"
      · subst h2
        simp [stdName, List.count_cons, ih]
        omega
      · simp [stdName, h, h2, List.count_cons, ih]

theorem airport_cap_not_mem_map (ns : List String) :
    "Airport_fee" ∉ ns.map stdName := by
  intro h
  obtain ⟨n, _, hn⟩ := List.mem_map.mp h
  by_cases h' : n = "Airport_fee"
  · subst h'; simp [stdName] at hn
  · rw [stdName, if_neg h'] at hn
    exact h' hn

/-! ### Name-aligned union: row content -/

/-- One row as an unordered bag of (column name, value) pairs: the
canonical form that is invariant under column reordering. -/
def rowCanon (sch : List (String × DType)) (r : List Value) : Multiset (String × Value) :=
  ((sch.map Prod.fst).zip r : List (String × Value))

/-- A table's rows as a bag of canonical rows. -/
def canonRows (t : Table) : Multiset (Multiset (String × Value)) :=
  (t.rows.map (rowCanon t.schema) : List (Multiset (String × Value)))

/-- Canonical row bag of the loop accumulator. -/
def canonOpt : Option Table → Multiset (Multiset (String × Value))
  | none => 0
  | some t => canonRows t

theorem lookupVal_cons_ne (n m : String) (v : Value) (ns : List String)
    (vs : List Value) (h : m ≠ n) :
    lookupVal (n :: ns) (v :: vs) m = lookupVal ns vs m := by
  unfold lookupVal
  simp only [List.zip_cons_cons, List.find?_cons]
  have hne : (decide ((n, v).1 = m)) = false := by
    simp only [decide_eq_false_iff_not]
    exact fun h' => h h'.symm
  simp [hne]

theorem zip_self_lookup (ns : List String) (r : List Value)
    (hlen : r.length = ns.length) (hnd : ns.Nodup) :
    ns.zip r = ns.map (fun n => (n, lookupVal ns r n)) := by
  induction ns generalizing r with
  | nil => simp
  | cons n ns ih =>
    cases r with
    | nil => simp at hlen
    | cons v vs =>
      simp only [List.length_cons, Nat.succ_inj] at hlen
      have hnmem : n ∉ ns := (List.nodup_cons.mp hnd).1
      have hndtl : ns.Nodup := (List.nodup_cons.mp hnd).2
      simp only [List.zip_cons_cons, List.map_cons, List.cons.injEq]
      constructor
      · unfold lookupVal
        simp [List.find?_cons]
      · rw [ih vs hlen hndtl]
        apply List.map_congr_left
        intro m hm
        have hmn : m ≠ n := fun he => hnmem (he ▸ hm)
        rw [lookupVal_cons_ne n m v ns vs hmn]

theorem alignRow_self (ns : List String) (r : List Value)
    (hlen : r.length = ns.length) (hnd : ns.Nodup) :
    alignRow ns ns r = r := by
  have h2 : List.map Prod.snd (ns.zip r) = r :=
    List.map_snd_zip ns r (by omega)
  rw [zip_self_lookup ns r hlen hnd, List.map_map] at h2
  exact h2

theorem zip_alignRow (ns1 ns2 : List String) (r : List Value) :
    ns1.zip (alignRow ns1 ns2 r) =
      ns1.map (fun n => (n, lookupVal ns2 r n)) := by
  have h := List.zip_map' id (fun n => lookupVal ns2 r n) ns1
  rw [List.map_id] at h
  exact h

theorem rowCanon_align (sch1 sch2 : List (String × DType)) (r : List Value)
    (hnd2 : (sch2.map Prod.fst).Nodup)
    (hp : sch2.Perm sch1)
    (hlen : r.length = sch2.length) :
    rowCanon sch1 (alignRow (sch1.map Prod.fst) (sch2.map Prod.fst) r) =
      rowCanon sch2 r := by
  unfold rowCanon
  rw [zip_alignRow, zip_self_lookup (sch2.map Prod.fst) r (by simpa using hlen) hnd2]
  rw [Multiset.coe_eq_coe]
  exact (hp.map Prod.fst).map (fun n => (n, lookupVal (sch2.map Prod.fst) r n)) |>.symm

theorem unionByName_eq_ok (t1 t2 : Table)
    (h1 : (t1.schema.map Prod.fst).Nodup) (h2 : (t2.schema.map Prod.fst).Nodup)
    (hp : t2.schema.Perm t1.schema) :
    unionByName t1 t2 = .ok ⟨t1.schema,
      t1.rows ++ t2.rows.map (alignRow (t1.schema.map Prod.fst) (t2.schema.map Prod.fst))⟩ := by
  simp [unionByName, h1, h2, hp]

theorem canonRows_mk (sch : List (String × DType)) (rs : List (List Value)) :
    canonRows ⟨sch, rs⟩ = (rs.map (rowCanon sch) : List (Multiset (String × Value))) := rfl

theorem canonRows_union (t1 t2 : Table)
    (hnd2 : (t2.schema.map Prod.fst).Nodup)
    (hp : t2.schema.Perm t1.schema)
    (hwf2 : t2.WFRows) :
    canonRows ⟨t1.schema,
        t1.rows ++ t2.rows.map (alignRow (t1.schema.map Prod.fst) (t2.schema.map Prod.fst))⟩ =
      canonRows t1 + canonRows t2 := by
  rw [canonRows_mk, List.map_append, ← Multiset.coe_add, List.map_map]
  unfold canonRows
  congr 1
  rw [Multiset.coe_eq_coe]
  have : t2.rows.map (rowCanon t1.schema ∘
      alignRow (t1.schema.map Prod.fst) (t2.schema.map Prod.fst)) =
      t2.rows.map (rowCanon t2.schema) := by
    apply List.map_congr_left
    intro r hr
    exact rowCanon_align t1.schema t2.schema r hnd2 hp (hwf2 r hr)
  rw [this]

/-- The accumulation loop over tables whose schemas are all permutations of
a common schema `s`: it succeeds, keeps the seed's column order, adds up
the row counts, and its row content is the bag sum of the inputs' row
content. -/
theorem mergeLoop_sum (s : List (String × DType)) :
    ∀ (ts : List Table) (u : Table),
    u.schema.Perm s → (u.schema.map Prod.fst).Nodup → u.WFRows →
    (∀ t ∈ ts, t.schema.Perm s ∧ (t.schema.map Prod.fst).Nodup ∧ t.WFRows) →
    ∃ w, mergeLoop (some u) ts = .ok (some w) ∧ w.schema = u.schema ∧
      w.rows.length = u.rows.length + (ts.map (fun t => t.rows.length)).sum ∧
      canonRows w = canonRows u + (ts.map canonRows).sum ∧ w.WFRows := by
  intro ts
  induction ts with
  | nil =>
    intro u hps hnd hwf _
    exact ⟨u, rfl, rfl, by simp, by simp, hwf⟩
  | cons t rest ih =>
    intro u hps hnd hwf hts
    have ht := hts t (by simp)
    have hpt : t.schema.Perm u.schema := ht.1.trans hps.symm
    have hu2 := unionByName_eq_ok u t hnd ht.2.1 hpt
    set u2 : Table := ⟨u.schema,
      u.rows ++ t.rows.map (alignRow (u.schema.map Prod.fst) (t.schema.map Prod.fst))⟩ with hu2def
    have hu2schema : u2.schema = u.schema := rfl
    have hu2wf : u2.WFRows := by
      intro r hr
      rw [hu2def] at hr
      simp only [List.mem_append, List.mem_map] at hr
      rcases hr with hr | ⟨r0, _, hr0⟩
      · exact hwf r hr
      · rw [← hr0]
        simp [alignRow, hu2def]
    have hu2canon : canonRows u2 = canonRows u + canonRows t :=
      canonRows_union u t ht.2.1 hpt ht.2.2
    have hu2len : u2.rows.length = u.rows.length + t.rows.length := by
      simp [hu2def]
    obtain ⟨w, hw, hwsch, hwlen, hwcanon, hwwf⟩ :=
      ih u2 (hu2schema ▸ hps) (hu2schema ▸ hnd) hu2wf
        (fun t' ht' => hts t' (by simp [ht']))
    refine ⟨w, ?_, by rw [hwsch, hu2schema], ?_, ?_, hwwf⟩
    · show mergeLoop (some u) (t :: rest) = .ok (some w)
      unfold mergeLoop
      rw [hu2]
      simpa using hw
    · rw [hwlen, hu2len, List.map_cons, List.sum_cons]
      omega
    · rw [hwcanon, hu2canon, List.map_cons, List.sum_cons, add_assoc]

/-- The accumulation loop over tables that all share literally the same
schema: the output rows are the concatenation, in order, of the inputs'
rows. -/
theorem mergeLoop_concat (s : List (String × DType)) (hnd : (s.map Prod.fst).Nodup) :
    ∀ (ts : List Table) (u : Table),
    u.schema = s → u.WFRows →
    (∀ t ∈ ts, t.schema = s ∧ t.WFRows) →
    ∃ w, mergeLoop (some u) ts = .ok (some w) ∧ w.schema = s ∧
      w.rows = u.rows ++ (ts.map Table.rows).flatten ∧ w.WFRows := by
  intro ts
  induction ts with
  | nil =>
    intro u hus hwf _
    exact ⟨u, rfl, hus, by simp, hwf⟩
  | cons t rest ih =>
    intro u hus hwf hts
    have ht := hts t (by simp)
    have hndu : (u.schema.map Prod.fst).Nodup := by rw [hus]; exact hnd
    have hndt : (t.schema.map Prod.fst).Nodup := by rw [ht.1]; exact hnd
    have hpt : t.schema.Perm u.schema := by rw [ht.1, hus]
    have hu2 := unionByName_eq_ok u t hndu hndt hpt
    have halign : t.rows.map (alignRow (u.schema.map Prod.fst) (t.schema.map Prod.fst)) =
        t.rows := by
      conv_rhs => rw [← List.map_id t.rows]
      apply List.map_congr_left
      intro r hr
      show alignRow (u.schema.map Prod.fst) (t.schema.map Prod.fst) r = r
      rw [hus, ht.1]
      apply alignRow_self (s.map Prod.fst) r
      · rw [List.length_map, ← ht.1]
        exact ht.2 r hr
      · exact hnd
    set u2 : Table := ⟨u.schema, u.rows ++
      t.rows.map (alignRow (u.schema.map Prod.fst) (t.schema.map Prod.fst))⟩ with hu2def
    have hu2rows : u2.rows = u.rows ++ t.rows := by
      rw [hu2def]
      simpa using halign
    have hu2wf : u2.WFRows := by
      intro r hr
      rw [hu2rows] at hr
      show r.length = u2.schema.length
      have hsch2 : u2.schema = u.schema := rfl
      rcases List.mem_append.mp hr with hr | hr
      · rw [hsch2]; exact hwf r hr
      · rw [hsch2, hus, ← ht.1]; exact ht.2 r hr
    obtain ⟨w, hw, hwsch, hwrows, hwwf⟩ :=
      ih u2 (by rw [hu2def]; exact hus) hu2wf (fun t' ht' => hts t' (by simp [ht']))
    refine ⟨w, ?_, hwsch, ?_, hwwf⟩
    · show mergeLoop (some u) (t :: rest) = .ok (some w)
      unfold mergeLoop
      rw [hu2]
      simpa using hw
    · rw [hwrows, hu2rows, List.map_cons, List.flatten_cons, List.append_assoc]

/-! ### The observed input schemas -/

/-- The column layout shared by all observed input files (the schemas
printed in the notebook): fixed names and types, except that the vendor,
location, passenger-count and rate-code columns vary in type per file and
the airport-fee column varies in spelling. -/
def mkInputSchema (vt pc rc pu dol : DType) (an : String) : List (String × DType) :=
  [("VendorID", vt), ("tpep_pickup_datetime", .timestampNtz),
   ("tpep_dropoff_datetime", .timestampNtz), ("passenger_count", pc),
   ("trip_distance", .double), ("RatecodeID", rc), ("store_and_fwd_flag", .str),
   ("PULocationID", pu), ("DOLocationID", dol), ("payment_type", .long),
   ("fare_amount", .double), ("extra", .double), ("mta_tax", .double),
   ("tip_amount", .double), ("tolls_amount", .double),
   ("improvement_surcharge", .double), ("total_amount", .double),
   ("congestion_surcharge", .double), (an, .double)]

/-- The uniform schema the notebook prints for the combined table. -/
def normalizedSchema : List (String × DType) :=
  [("VendorID", .int), ("tpep_pickup_datetime", .timestampNtz),
   ("tpep_dropoff_datetime", .timestampNtz), ("passenger_count", .double),
   ("trip_distance", .double), ("RatecodeID", .double), ("store_and_fwd_flag", .str),
   ("PULocationID", .int), ("DOLocationID", .int), ("payment_type", .long),
   ("fare_amount", .double), ("extra", .double), ("mta_tax", .double),
   ("tip_amount", .double), ("tolls_amount", .double),
   ("improvement_surcharge", .double), ("total_amount", .double),
   ("congestion_surcharge", .double), ("airport_fee", .double)]

/-- A table carrying the expected column set: the observed layout, with
any types in the per-file varying slots and either spelling of the
airport-fee column. -/
def ExpectedInput (t : Table) : Prop :=
  ∃ vt pc rc pu dol an, (an = "airport_fee" ∨ an = "Airport_fee") ∧
    t.schema = mkInputSchema vt pc rc pu dol an

theorem requiredPresent_expected (t : Table) (h : ExpectedInput t) :
    RequiredPresent t := by
  obtain ⟨vt, pc, rc, pu, dol, an, _, hsch⟩ := h
  intro n hn
  rw [hsch]
  simp only [requiredColumns, List.mem_cons, List.not_mem_nil, or_false] at hn
  rcases hn with h | h | h | h | h <;> subst h <;> simp [mkInputSchema]

theorem normalForm_expected (t : Table) (h : ExpectedInput t) :
    (normalForm t).schema = normalizedSchema := by
  obtain ⟨vt, pc, rc, pu, dol, an, han, hsch⟩ := h
  show t.schema.map _ = _
  rw [hsch]
  rcases han with h | h <;> subst h <;>
    simp [mkInputSchema, normalizedSchema, stdName, stdType]

/-! ### Columns touched by standardization -/

/-- The columns the standardization touches: the five cast columns and the
airport-fee column (either spelling). -/
def touchedColumns : List String :=
  "Airport_fee" :: "airport_fee" :: requiredColumns

theorem stdName_untouched (n : String) (h : n ∉ touchedColumns) : stdName n = n := by
  simp only [touchedColumns, requiredColumns, List.mem_cons, List.not_mem_nil,
    or_false, not_or] at h
  simp [stdName, h.1]

theorem stdType_untouched (n : String) (τ : DType) (h : n ∉ touchedColumns) :
    stdType n τ = τ := by
  simp only [touchedColumns, requiredColumns, List.mem_cons, List.not_mem_nil,
    or_false, not_or] at h
  simp [stdType, h.2.2.1, h.2.2.2.1, h.2.2.2.2.1, h.2.2.2.2.2.1, h.2.2.2.2.2.2]

theorem stdVal_untouched (n : String) (v : Value) (h : n ∉ touchedColumns) :
    stdVal n v = v := by
  simp only [touchedColumns, requiredColumns, List.mem_cons, List.not_mem_nil,
    or_false, not_or] at h
  simp [stdVal, h.2.2.1, h.2.2.2.1, h.2.2.2.2.1, h.2.2.2.2.2.1, h.2.2.2.2.2.2]

theorem stdName_eq_iff (m : String) (hm1 : m ≠ "airport_fee") (hm2 : m ≠ "Airport_fee") :
    ∀ n, stdName n = m ↔ n = m := by
  intro n
  unfold stdName
  by_cases h : n = "Airport_fee"
  · simp only [h, if_pos rfl]
    constructor
    · intro he; exact absurd he.symm hm1
    · intro he; exact absurd he.symm hm2
  · simp [h]

theorem mergeLoop_none_sum (s : List (String × DType))
    (hnd : (s.map Prod.fst).Nodup) (ts : List Table)
    (hts : ∀ t ∈ ts, t.schema.Perm s ∧ t.WFRows) :
    ∃ r, mergeLoop none ts = .ok r ∧ canonOpt r = (ts.map canonRows).sum := by
  cases ts with
  | nil => exact ⟨none, rfl, by simp [canonOpt]⟩
  | cons t rest =>
    have ht := hts t (by simp)
    have hndt : (t.schema.map Prod.fst).Nodup :=
      ((ht.1.map Prod.fst).nodup_iff).mpr hnd
    obtain ⟨w, hw, _, _, hwcanon, _⟩ :=
      mergeLoop_sum s rest t ht.1 hndt ht.2 (fun t' h' => by
        have h2 := hts t' (by simp [h'])
        exact ⟨h2.1, ((h2.1.map Prod.fst).nodup_iff).mpr hnd, h2.2⟩)
    refine ⟨some w, ?_, ?_⟩
    · exact hw
    · simp only [canonOpt, hwcanon, List.map_cons, List.sum_cons]

/-! ### Sample inputs (the observed file layouts, one row each) -/

/-- A one-row input in the 2022-file layout: 64-bit integer identifiers,
floating-point counts, lowercase airport-fee spelling. -/
def sampleLong : Table :=
  ⟨mkInputSchema .long .double .double .long .long "airport_fee",
   [[.long 2, .ts 100, .ts 200, .double 1, .double (5/2), .double 1, .str "N",
     .long 142, .long 236, .long 1, .double 10, .double 1, .double (1/2),
     .double 2, .double 0, .double (3/10), .double 14, .double (5/2), .double 0]]⟩

/-- A one-row input in the 2023-file layout: 32-bit integer identifiers,
64-bit integer counts, capitalized airport-fee spelling. -/
def sampleInt : Table :=
  ⟨mkInputSchema .int .long .long .int .int "Airport_fee",
   [[.int 1, .ts 300, .ts 400, .long 2, .double 3, .long 1, .str "Y",
     .int 50, .int 60, .long 2, .double 20, .double 0, .double (1/2),
     .double 0, .double 0, .double (3/10), .double 21, .double 0, .double (5/4)]]⟩

/-- An input missing the `VendorID` column (and the other cast columns
except `passenger_count`). -/
def noVendorTable : Table :=
  ⟨[("passenger_count", .long), ("trip_distance", .double)], [[.long 1, .double 2]]⟩

/-! ### The claims -/

/-- C1: for every input table containing the expected column set, the
standardized table declares `VendorID`, `PULocationID` and `DOLocationID`
with the fixed-width signed integer type and `passenger_count`,
`RatecodeID` with the floating-point type, whatever those columns' types
were in the input. -/
theorem normalize_casts_fixed_types (t : Table) (h5 : RequiredPresent t) :
    ∃ u, standardize_schema t = .ok u ∧
      u.typeOf "VendorID" = some .int ∧
      u.typeOf "PULocationID" = some .int ∧
      u.typeOf "DOLocationID" = some .int ∧
      u.typeOf "passenger_count" = some .double ∧
      u.typeOf "RatecodeID" = some .double := by
  refine ⟨normalForm t, standardize_eq_normalForm t h5, ?_, ?_, ?_, ?_, ?_⟩
  · exact typeOf_normalForm_eq t "VendorID" .int
      (stdName_eq_iff _ (by decide) (by decide)) (fun τ => by simp [stdType])
      (h5 _ (by simp [requiredColumns]))
  · exact typeOf_normalForm_eq t "PULocationID" .int
      (stdName_eq_iff _ (by decide) (by decide)) (fun τ => by simp [stdType])
      (h5 _ (by simp [requiredColumns]))
  · exact typeOf_normalForm_eq t "DOLocationID" .int
      (stdName_eq_iff _ (by decide) (by decide)) (fun τ => by simp [stdType])
      (h5 _ (by simp [requiredColumns]))
  · exact typeOf_normalForm_eq t "passenger_count" .double
      (stdName_eq_iff _ (by decide) (by decide)) (fun τ => by simp [stdType])
      (h5 _ (by simp [requiredColumns]))
  · exact typeOf_normalForm_eq t "RatecodeID" .double
      (stdName_eq_iff _ (by decide) (by decide)) (fun τ => by simp [stdType])
      (h5 _ (by simp [requiredColumns]))

theorem normalize_casts_fixed_types_witness :
    RequiredPresent sampleLong ∧
    ∃ u, standardize_schema sampleLong = .ok u ∧
      u.typeOf "VendorID" = some .int ∧
      u.typeOf "PULocationID" = some .int ∧
      u.typeOf "DOLocationID" = some .int ∧
      u.typeOf "passenger_count" = some .double ∧
      u.typeOf "RatecodeID" = some .double :=
  ⟨by decide, normalize_casts_fixed_types sampleLong (by decide)⟩

/-- C2: for every input table containing the cast columns, without
duplicate column names and with exactly one of the two airport-fee
spellings, the standardized table has exactly one column named
`airport_fee` and none named `Airport_fee`: the alternate capitalization
is renamed, the canonical one is left untouched. -/
theorem normalize_canonical_airport_fee (t : Table) (h5 : RequiredPresent t)
    (hnd : (t.schema.map Prod.fst).Nodup)
    (hone : ("Airport_fee" ∈ t.schema.map Prod.fst ∧
             "airport_fee" ∉ t.schema.map Prod.fst) ∨
            ("airport_fee" ∈ t.schema.map Prod.fst ∧
             "Airport_fee" ∉ t.schema.map Prod.fst)) :
    ∃ u, standardize_schema t = .ok u ∧
      (u.schema.map Prod.fst).count "airport_fee" = 1 ∧
      "Airport_fee" ∉ u.schema.map Prod.fst := by
  refine ⟨normalForm t, standardize_eq_normalForm t h5, ?_, ?_⟩
  · rw [names_normalForm, count_airport_map_stdName]
    rcases hone with ⟨h1, h2⟩ | ⟨h1, h2⟩
    · rw [List.count_eq_one_of_mem hnd h1, List.count_eq_zero_of_not_mem h2]
    · rw [List.count_eq_zero_of_not_mem h2, List.count_eq_one_of_mem hnd h1]
  · rw [names_normalForm]
    exact airport_cap_not_mem_map _

theorem normalize_canonical_airport_fee_witness :
    (RequiredPresent sampleInt ∧ (sampleInt.schema.map Prod.fst).Nodup ∧
      "Airport_fee" ∈ sampleInt.schema.map Prod.fst ∧
      "airport_fee" ∉ sampleInt.schema.map Prod.fst) ∧
    ∃ u, standardize_schema sampleInt = .ok u ∧
      (u.schema.map Prod.fst).count "airport_fee" = 1 ∧
      "Airport_fee" ∉ u.schema.map Prod.fst :=
  ⟨by decide, normalize_canonical_airport_fee sampleInt (by decide) (by decide)
    (Or.inl (by decide))⟩

/-- C3: standardization is idempotent: whenever it succeeds, running it
again on its output succeeds and returns the output unchanged (same
schema, same values). -/
theorem normalize_idempotent (t u : Table) (h : standardize_schema t = .ok u) :
    standardize_schema u = .ok u := by
  have hreq := standardize_ok_required t u h
  rw [standardize_eq_normalForm t hreq] at h
  have hu : normalForm t = u := by injection h
  subst hu
  rw [standardize_eq_normalForm _ (requiredPresent_normalForm t hreq), normalForm_idem]

theorem normalize_idempotent_witness :
    standardize_schema sampleLong = .ok (normalForm sampleLong) ∧
    standardize_schema (normalForm sampleLong) = .ok (normalForm sampleLong) :=
  ⟨rfl, normalize_idempotent sampleLong (normalForm sampleLong) rfl⟩

/-- C4: merging pre-normalized tables with a common schema yields a row
count equal to the sum of the inputs' row counts, and its rows are exactly
the concatenation of the inputs' rows (every row appears, duplicates
preserved). -/
theorem merge_row_count_law (ts : List Table) (s : List (String × DType))
    (hnd : (s.map Prod.fst).Nodup)
    (hts : ∀ t ∈ ts, t.schema = s ∧ t.WFRows) :
    ∃ r, mergeLoop none ts = .ok r ∧
      optRowCount r = (ts.map (fun t => t.rows.length)).sum ∧
      optRows r = (ts.map Table.rows).flatten := by
  cases ts with
  | nil => exact ⟨none, rfl, by simp [optRowCount], by simp [optRows]⟩
  | cons t rest =>
    have ht := hts t (by simp)
    obtain ⟨w, hw, hwsch, hwrows, hwwf⟩ :=
      mergeLoop_concat s hnd rest t ht.1 ht.2 (fun t' h' => hts t' (by simp [h']))
    refine ⟨some w, hw, ?_, ?_⟩
    · simp only [optRowCount, hwrows, List.length_append, List.length_flatten,
        List.map_map, List.map_cons, List.sum_cons]
      rfl
    · simp only [optRows, hwrows, List.map_cons, List.flatten_cons]

theorem merge_row_count_law_witness :
    ((normalizedSchema.map Prod.fst).Nodup ∧
      ∀ t ∈ [normalForm sampleLong, normalForm sampleInt],
        t.schema = normalizedSchema ∧ t.WFRows) ∧
    ∃ r, mergeLoop none [normalForm sampleLong, normalForm sampleInt] = .ok r ∧
      optRowCount r =
        ([normalForm sampleLong, normalForm sampleInt].map (fun t => t.rows.length)).sum ∧
      optRows r = ([normalForm sampleLong, normalForm sampleInt].map Table.rows).flatten :=
  ⟨⟨by decide, by decide⟩,
   merge_row_count_law [normalForm sampleLong, normalForm sampleInt] normalizedSchema
     (by decide) (by decide)⟩

/-- C5: over pre-normalized tables sharing the same column names and
types (in any column order per table), the merge loop succeeds, its row
content is the bag sum of the inputs' name-aligned row content (columns
are matched by name, so column order cannot misalign data), and any
permutation of the input sequence yields the same bag of rows. -/
theorem merge_perm_invariant (ts ts2 : List Table) (s : List (String × DType))
    (hnd : (s.map Prod.fst).Nodup) (hp : ts.Perm ts2)
    (hts : ∀ t ∈ ts, t.schema.Perm s ∧ t.WFRows) :
    ∃ r r2, mergeLoop none ts = .ok r ∧ mergeLoop none ts2 = .ok r2 ∧
      canonOpt r = (ts.map canonRows).sum ∧ canonOpt r2 = canonOpt r := by
  obtain ⟨r, hr, hrc⟩ := mergeLoop_none_sum s hnd ts hts
  have hts2 : ∀ t ∈ ts2, t.schema.Perm s ∧ t.WFRows := fun t h =>
    hts t (hp.mem_iff.mpr h)
  obtain ⟨r2, hr2, hrc2⟩ := mergeLoop_none_sum s hnd ts2 hts2
  refine ⟨r, r2, hr, hr2, hrc, ?_⟩
  rw [hrc2, hrc]
  exact ((hp.map canonRows).sum_eq).symm

/-- A pre-normalized one-row table with the uniform schema in reversed
column order (name-based alignment must still place its values
correctly). -/
def sampleReordered : Table :=
  ⟨normalizedSchema.reverse,
   [[.double 0, .double (5/2), .double 14, .double (3/10), .double 0,
     .double 2, .double (1/2), .double 1, .double 10, .long 1, .int 236,
     .int 142, .str "N", .double 1, .double (5/2), .double 1, .ts 200,
     .ts 100, .int 2]]⟩

theorem merge_perm_invariant_witness :
    ((normalizedSchema.map Prod.fst).Nodup ∧
      [normalForm sampleLong, sampleReordered].Perm
        [sampleReordered, normalForm sampleLong] ∧
      ∀ t ∈ [normalForm sampleLong, sampleReordered],
        t.schema.Perm normalizedSchema ∧ t.WFRows) ∧
    ∃ r r2, mergeLoop none [normalForm sampleLong, sampleReordered] = .ok r ∧
      mergeLoop none [sampleReordered, normalForm sampleLong] = .ok r2 ∧
      canonOpt r = ([normalForm sampleLong, sampleReordered].map canonRows).sum ∧
      canonOpt r2 = canonOpt r :=
  ⟨⟨by decide, List.Perm.swap _ _ _, by decide⟩,
   merge_perm_invariant [normalForm sampleLong, sampleReordered]
     [sampleReordered, normalForm sampleLong] normalizedSchema
     (by decide) (List.Perm.swap _ _ _) (by decide)⟩

/-- C6: any two input tables with the expected column set standardize to
tables exposing the same column names with the same declared types (both
equal the uniform printed schema), so the subsequent name-based union
cannot drop, duplicate, or null-out a column. -/
theorem normalize_uniform_schema (t1 t2 : Table)
    (h1 : ExpectedInput t1) (h2 : ExpectedInput t2) :
    ∃ u1 u2, standardize_schema t1 = .ok u1 ∧ standardize_schema t2 = .ok u2 ∧
      u1.schema = normalizedSchema ∧ u2.schema = normalizedSchema ∧
      u1.schema = u2.schema := by
  refine ⟨normalForm t1, normalForm t2,
    standardize_eq_normalForm t1 (requiredPresent_expected t1 h1),
    standardize_eq_normalForm t2 (requiredPresent_expected t2 h2),
    normalForm_expected t1 h1, normalForm_expected t2 h2, ?_⟩
  rw [normalForm_expected t1 h1, normalForm_expected t2 h2]

theorem normalize_uniform_schema_witness :
    (ExpectedInput sampleLong ∧ ExpectedInput sampleInt) ∧
    ∃ u1 u2, standardize_schema sampleLong = .ok u1 ∧
      standardize_schema sampleInt = .ok u2 ∧
      u1.schema = normalizedSchema ∧ u2.schema = normalizedSchema ∧
      u1.schema = u2.schema :=
  ⟨⟨⟨.long, .double, .double, .long, .long, "airport_fee", Or.inl rfl, rfl⟩,
    ⟨.int, .long, .long, .int, .int, "Airport_fee", Or.inr rfl, rfl⟩⟩,
   normalize_uniform_schema sampleLong sampleInt
     ⟨.long, .double, .double, .long, .long, "airport_fee", Or.inl rfl, rfl⟩
     ⟨.int, .long, .long, .int, .int, "Airport_fee", Or.inr rfl, rfl⟩⟩

/-- C7: standardization fails (with the missing-column analysis error) if
and only if one of the five cast-rule columns is absent; no other column,
in particular neither airport-fee spelling, is validated. -/
theorem normalize_fails_iff_missing (t : Table) :
    (∃ e, standardize_schema t = .error e) ↔
      ("VendorID" ∉ t.schema.map Prod.fst ∨
       "passenger_count" ∉ t.schema.map Prod.fst ∨
       "RatecodeID" ∉ t.schema.map Prod.fst ∨
       "PULocationID" ∉ t.schema.map Prod.fst ∨
       "DOLocationID" ∉ t.schema.map Prod.fst) := by
  rw [standardize_error_iff]
  unfold RequiredPresent
  constructor
  · intro h
    by_contra hc
    push_neg at hc
    obtain ⟨hV, hP, hR, hU, hD⟩ := hc
    apply h
    intro n hn
    simp only [requiredColumns, List.mem_cons, List.not_mem_nil, or_false] at hn
    rcases hn with h1 | h1 | h1 | h1 | h1 <;> subst h1 <;> assumption
  · intro h hall
    rcases h with h | h | h | h | h <;>
      exact h (hall _ (by simp [requiredColumns]))

theorem normalize_fails_iff_missing_witness :
    (∃ e, standardize_schema noVendorTable = .error e) ↔
      ("VendorID" ∉ noVendorTable.schema.map Prod.fst ∨
       "passenger_count" ∉ noVendorTable.schema.map Prod.fst ∨
       "RatecodeID" ∉ noVendorTable.schema.map Prod.fst ∨
       "PULocationID" ∉ noVendorTable.schema.map Prod.fst ∨
       "DOLocationID" ∉ noVendorTable.schema.map Prod.fst) :=
  normalize_fails_iff_missing noVendorTable

/-- C8 (amended): the session-stop cell is reached on every run whose
transformation completes successfully; the notebook is straight-line, so
a run aborted by an error stops before reaching it (there is no
finally-style guarantee in the code). -/
theorem session_stop_on_success (inputs : List Table) (t : Table)
    (h : (runNotebook inputs).fst = .ok t) :
    (runNotebook inputs).snd = true := by
  unfold runNotebook at h ⊢
  cases hp : pipelineLoop none inputs with
  | error e =>
    rw [hp] at h
    simp at h
  | ok o =>
    cases o with
    | none =>
      rw [hp] at h
      simp at h
    | some w => rfl

theorem session_stop_on_success_witness :
    (runNotebook [sampleLong]).fst = .ok (normalForm sampleLong) ∧
    (runNotebook [sampleLong]).snd = true :=
  ⟨rfl, session_stop_on_success [sampleLong] (normalForm sampleLong) rfl⟩

/-- C8 as stated is false on the code: on an input file whose table lacks
the required `VendorID` column, the transformation aborts with an error
and the run ends without the session-stop operation being reached. -/
theorem session_stop_counterexample :
    (runNotebook [noVendorTable]).fst =
      .error (.schema (.missingColumn "VendorID")) ∧
    (runNotebook [noVendorTable]).snd = false :=
  ⟨rfl, rfl⟩

/-- C9: with an empty input list the loop leaves the accumulator as the
unset `None` sentinel, so the run produces no unified table: the
subsequent use of the accumulator fails and the pipeline has no defined
successful result for that case. -/
theorem empty_input_no_result :
    pipelineLoop none ([] : List Table) = .ok none ∧
    mergeLoop none ([] : List Table) = .ok none ∧
    runNotebook [] = (.error .emptyAccumulator, false) :=
  ⟨rfl, rfl, rfl⟩

/-- C10: standardization is a frame transformation: it preserves the row
count and the column count, keeps every column at its position (with only
the airport-fee name adjusted), and leaves every column outside the five
cast columns and the airport-fee column unchanged in name, declared type
and values. -/
theorem normalize_frame (t u : Table) (h : standardize_schema t = .ok u)
    (hwf : t.WFRows) :
    u.rows.length = t.rows.length ∧
    u.schema.length = t.schema.length ∧
    (∀ (i : Nat) (n : String) (τ : DType),
      t.schema[i]? = some (n, τ) → n ∉ touchedColumns →
      u.schema[i]? = some (n, τ)) ∧
    (∀ (i : Nat) (n : String) (τ : DType), t.schema[i]? = some (n, τ) →
      ∃ τ2, u.schema[i]? = some (stdName n, τ2)) ∧
    (∀ (j : Nat) (r : List Value), t.rows[j]? = some r →
      ∃ r2 : List Value, u.rows[j]? = some r2 ∧
      r2.length = r.length ∧
      ∀ (i : Nat) (n : String) (τ : DType),
        t.schema[i]? = some (n, τ) → n ∉ touchedColumns →
        r2[i]? = r[i]?) := by
  have hreq := standardize_ok_required t u h
  rw [standardize_eq_normalForm t hreq] at h
  have hu : normalForm t = u := by injection h
  subst hu
  refine ⟨by simp [normalForm], by simp [normalForm], ?_, ?_, ?_⟩
  · intro i n τ hi hn
    show (t.schema.map _)[i]? = _
    rw [List.getElem?_map, hi]
    simp [stdName_untouched n hn, stdType_untouched n τ hn]
  · intro i n τ hi
    refine ⟨stdType n τ, ?_⟩
    show (t.schema.map _)[i]? = _
    rw [List.getElem?_map, hi]
    rfl
  · intro j r hj
    refine ⟨List.zipWith stdVal (t.schema.map Prod.fst) r, ?_, ?_, ?_⟩
    · show (t.rows.map _)[j]? = _
      rw [List.getElem?_map, hj]
      rfl
    · rw [List.length_zipWith, List.length_map]
      have hr := hwf r (List.getElem?_mem hj)
      omega
    · intro i n τ hi hn
      have hns : (t.schema.map Prod.fst)[i]? = some n := by
        rw [List.getElem?_map, hi]
        rfl
      have hilt : i < t.schema.length := by
        rcases List.getElem?_eq_some.mp hi with ⟨h2, _⟩
        exact h2
      have hrlen : r.length = t.schema.length := hwf r (List.getElem?_mem hj)
      have hir : i < r.length := by omega
      rw [List.getElem?_zipWith, hns, List.getElem?_eq_getElem hir]
      show some (stdVal n r[i]) = some r[i]
      rw [stdVal_untouched n _ hn]

theorem normalize_frame_witness :
    (standardize_schema sampleLong = .ok (normalForm sampleLong) ∧
      sampleLong.WFRows) ∧
    ((normalForm sampleLong).rows.length = sampleLong.rows.length ∧
      (normalForm sampleLong).schema.length = sampleLong.schema.length) :=
  ⟨⟨rfl, by decide⟩,
   ⟨(normalize_frame sampleLong (normalForm sampleLong) rfl (by decide)).1,
    (normalize_frame sampleLong (normalForm sampleLong) rfl (by decide)).2.1⟩⟩
